import Mathlib

/-!
Shallow embedding of the WebVTT streaming parser
(`packager/media/formats/webvtt/webvtt_parser.cc`) and verification of the
specification claims about it.

Bytes are modelled as `Char` values (each char standing for one byte; all
inputs of interest are ASCII plus the three UTF-8 BOM bytes, which are
modelled as the chars with code points 0xEF 0xBB 0xBF).  Lines and blocks
are `String` / `List String`, machine integers are `Nat` (cue times fit in
64 bits for any input provable here; no overflow is reachable).

The block reader (`text_readers.cc`) and the timestamp parser
(`webvtt_timestamp.cc`) are not part of the provided sources; they are
modelled from the spec, as marked in their doc comments.  Everything else
is translated directly from `webvtt_parser.cc`.
-/

namespace WebVtt

/-! ### Character and string helpers (base/strings) -/

/-- The ASCII whitespace set used by `base::TrimWhitespaceASCII`. -/
def isWsASCII (c : Char) : Bool :=
  c = ' ' || c = '\t' || c = '\n' || c = Char.ofNat 11 || c = Char.ofNat 12 || c = '\r'

/-- `base::TrimWhitespaceASCII(line, base::TRIM_TRAILING)` on a char list. -/
def trimTrailingL (l : List Char) : List Char :=
  (l.reverse.dropWhile isWsASCII).reverse

/-- `base::TrimWhitespaceASCII(piece, base::TRIM_ALL)` on a char list. -/
def trimWsL (l : List Char) : List Char :=
  ((l.dropWhile isWsASCII).reverse.dropWhile isWsASCII).reverse

/-- Split a char list at every occurrence of the separator character
(the behavior of `base::SplitString` with a one-character separator,
before trimming/filtering). -/
def splitOnChar (sep : Char) : List Char → List (List Char)
  | [] => [[]]
  | c :: rest =>
      match splitOnChar sep rest with
      | [] => [[c]]
      | p :: ps => if c = sep then [] :: p :: ps else (c :: p) :: ps

/-- Does the list start with the given prefix? -/
def startsWithL : List Char → List Char → Bool
  | [], _ => true
  | _ :: _, [] => false
  | p :: ps, c :: cs => p = c && startsWithL ps cs

/-- Does the char list contain the three-char cue-timing delimiter. -/
def hasArrow : List Char → Bool
  | '-' :: '-' :: '>' :: _ => true
  | _ :: rest => hasArrow rest
  | [] => false

/-- Join strings with a single separator char between them
(`base::JoinString`, and the spec's space/newline joins). -/
def joinLines (sep : Char) : List String → List Char
  | [] => []
  | [s] => s.data
  | s :: rest => s.data ++ sep :: joinLines sep rest

/-- Join a list of strings into one string with the separator char. -/
def joinWith (sep : Char) (l : List String) : String :=
  ⟨joinLines sep l⟩

/-! ### Block classification predicates (webvtt_parser.cc anonymous namespace) -/

/-- `IsLikelyNote`: the line is exactly "NOTE" or starts with "NOTE " /
"NOTE\t". -/
def IsLikelyNote (line : String) : Bool :=
  line = "NOTE" || startsWithL "NOTE ".data line.data ||
    startsWithL "NOTE\t".data line.data

/-- `IsLikelyCueTiming`: the line contains the substring "-->". -/
def IsLikelyCueTiming (line : String) : Bool :=
  hasArrow line.data

/-- `MaybeCueId`: the line does not contain the substring "-->". -/
def MaybeCueId (line : String) : Bool :=
  !hasArrow line.data

/-- `IsLikelyStyle`: after stripping trailing whitespace the line equals
"STYLE". -/
def IsLikelyStyle (line : String) : Bool :=
  trimTrailingL line.data = "STYLE".data

/-- `IsLikelyRegion`: after stripping trailing whitespace the line equals
"REGION". -/
def IsLikelyRegion (line : String) : Bool :=
  trimTrailingL line.data = "REGION".data

/-- `UpdateConfig`: append the block (lines joined by "\n") to the config,
preceded by a blank-line separator ("\n\n") when the config is non-empty. -/
def UpdateConfig (block : List String) (config : String) : String :=
  if config = "" then ⟨joinLines '\n' block⟩
  else ⟨config.data ++ '\n' :: '\n' :: joinLines '\n' block⟩

/-! ### Timestamp grammar -/

/-- Value of a list of decimal digit chars. -/
def digitsVal (l : List Char) : Nat :=
  l.foldl (fun a c => a * 10 + (c.toNat - 48)) 0

/-- Exactly two decimal digits. -/
def parse2Digits (l : List Char) : Option Nat :=
  match l with
  | [a, b] => if a.isDigit && b.isDigit then some (digitsVal [a, b]) else none
  | _ => none

/-- Exactly three decimal digits. -/
def parse3Digits (l : List Char) : Option Nat :=
  match l with
  | [a, b, c] =>
      if a.isDigit && b.isDigit && c.isDigit then some (digitsVal [a, b, c])
      else none
  | _ => none

/-- Two or more decimal digits (the unbounded hours field). -/
def parseHours (l : List Char) : Option Nat :=
  if 2 ≤ l.length && l.all Char.isDigit then some (digitsVal l) else none

/-- `SS.mmm`: exactly two digits in [00,59], a period, exactly three
digits. -/
def parseSecMs (l : List Char) : Option (Nat × Nat) :=
  match splitOnChar '.' l with
  | [ss, ms] =>
      match parse2Digits ss with
      | some s => if s ≤ 59 then (parse3Digits ms).map (fun m => (s, m)) else none
      | none => none
  | _ => none

/-- Modelled from the spec: `WebVttTimestampToMs` (webvtt_timestamp.cc is
not among the provided sources).  Accepts `[HH:]MM:SS.mmm` where HH is two
or more digits, MM and SS are exactly two digits each in [00,59], and mmm
is exactly three digits; yields `((HH*60+MM)*60+SS)*1000+mmm`
milliseconds. -/
def WebVttTimestampToMs (s : String) : Option Nat :=
  match splitOnChar ':' s.data with
  | [mm, rest] =>
      match parse2Digits mm with
      | some m =>
          if m ≤ 59 then
            (parseSecMs rest).map (fun p => (m * 60 + p.1) * 1000 + p.2)
          else none
      | none => none
  | [hh, mm, rest] =>
      match parseHours hh, parse2Digits mm with
      | some h, some m =>
          if m ≤ 59 then
            (parseSecMs rest).map (fun p => ((h * 60 + m) * 60 + p.1) * 1000 + p.2)
          else none
      | _, _ => none
  | _ => none

/-- The tokenization of a cue timing line:
`base::SplitString(line, " ", base::TRIM_WHITESPACE,
base::SPLIT_WANT_NONEMPTY)`. -/
def splitTimingLine (line : String) : List String :=
  (((splitOnChar ' ' line.data).map trimWsL).filter (fun p => p ≠ [])).map
    (fun p => ⟨p⟩)

/-! ### Data model -/

/-- The fields of a `TextSample` populated by this parser.  The
`AppendStyle` / `AppendPayload` joins (space / newline) are modelled from
the spec (text_sample.cc is not among the provided sources). -/
structure TextSample where
  id : String
  start_time : Nat
  end_time : Nat
  settings : String
  payload : String
deriving DecidableEq, Repr

/-- The fields of the `TextStreamInfo` populated by
`DispatchTextStreamInfo`. -/
structure StreamConfig where
  timescale : Nat
  codec_string : String
  config : String
deriving DecidableEq, Repr

/-- An emission through one of the parser's callbacks, in order. -/
inductive Event where
  | streamInfo (cfg : StreamConfig)
  | sample (streamIndex : Nat) (s : TextSample)
deriving DecidableEq, Repr

/-- The sample-sink callback: accepts `(streamIndex, sample)` and returns
accept/reject. -/
def SampleSink : Type := Nat → TextSample → Bool

/-- A sink that accepts every sample (the unit tests' sink). -/
def acceptAll : SampleSink := fun _ _ => true

/-- The parser's mutable fields (`initialized_`, `stream_info_dispatched_`,
`saw_cue_`, `style_region_config_`). -/
structure PState where
  initialized : Bool
  streamInfoDispatched : Bool
  sawCue : Bool
  styleRegionConfig : String
deriving DecidableEq, Repr

/-- The stream info value built by `DispatchTextStreamInfo` (timescale
1000, codec string "wvtt", config blob = current style/region config). -/
def mkStreamInfo (config : String) : StreamConfig :=
  ⟨1000, "wvtt", config⟩

/-! ### ParseCue / ParseBlock (webvtt_parser.cc) -/

/-- The emissions of `DispatchTextStreamInfo` as guarded by
`if (!stream_info_dispatched_)`: dispatch exactly when not yet
dispatched. -/
def dispatchEvs (ps : PState) : List Event :=
  if ps.streamInfoDispatched then []
  else [Event.streamInfo (mkStreamInfo ps.styleRegionConfig)]

/-- The `TextSample` built by `ParseCue`: id as given, parsed times,
settings = timing-line tokens from index 3 on joined by single spaces,
payload = block lines after the timing line joined by single newlines. -/
def cueSample (id : String) (start_time end_time : Nat)
    (styleToks payload : List String) : TextSample :=
  { id := id, start_time := start_time, end_time := end_time,
    settings := joinWith ' ' styleToks,
    payload := joinWith '\n' payload }

/-- `WebVttParser::ParseCue`.  `timing` is `block[0]`, `payload` the
remaining block lines.  Returns the new state, the emissions (in order)
and the success flag; the success flag of an emitted sample is the sink's
verdict. -/
def ParseCue (sink : SampleSink) (ps : PState) (id : String) (timing : String)
    (payload : List String) : PState × List Event × Bool :=
  match splitTimingLine timing with
  | t0 :: t1 :: t2 :: styleToks =>
      if t1 = "-->" then
        match WebVttTimestampToMs t0, WebVttTimestampToMs t2 with
        | some start_time, some end_time =>
            if end_time ≤ start_time then
              ({ ps with streamInfoDispatched := true }, dispatchEvs ps, true)
            else
              ({ ps with streamInfoDispatched := true },
               dispatchEvs ps ++
                 [Event.sample 0 (cueSample id start_time end_time styleToks payload)],
               sink 0 (cueSample id start_time end_time styleToks payload))
        | _, _ => (ps, [], false)
      else (ps, [], false)
  | _ => (ps, [], false)

/-- `WebVttParser::ParseBlock`.  The `[]` case models the out-of-range read
`block[0]` on an empty block; it is proved unreachable because the reader
yields only non-empty blocks. -/
def ParseBlock (sink : SampleSink) (ps : PState) (block : List String) :
    PState × List Event × Bool :=
  match block with
  | [] => (ps, [], false)
  | first :: rest =>
    if IsLikelyNote first then (ps, [], true)
    else if IsLikelyStyle first then
      (if ps.sawCue then (ps, [], true)
       else ({ ps with
                styleRegionConfig := UpdateConfig (first :: rest) ps.styleRegionConfig },
             [], true))
    else if IsLikelyRegion first then
      (if ps.sawCue then (ps, [], true)
       else ({ ps with
                styleRegionConfig := UpdateConfig (first :: rest) ps.styleRegionConfig },
             [], true))
    else
      match rest with
      | second :: rest2 =>
          if MaybeCueId first && IsLikelyCueTiming second then
            match ParseCue sink ps first second rest2 with
            | (ps2, evs, ok) =>
                if ok then ({ ps2 with sawCue := true }, evs, true)
                else
                  -- the source's second `if` (cue with no id); dead here
                  -- because `MaybeCueId first` excludes "-->" from `first`
                  if IsLikelyCueTiming first then
                    match ParseCue sink ps2 "" first (second :: rest2) with
                    | (ps3, evs2, ok2) =>
                        if ok2 then ({ ps3 with sawCue := true }, evs ++ evs2, true)
                        else (ps3, evs ++ evs2, false)
                  else (ps2, evs, false)
          else
            if IsLikelyCueTiming first then
              match ParseCue sink ps "" first (second :: rest2) with
              | (ps2, evs, ok) =>
                  if ok then ({ ps2 with sawCue := true }, evs, true)
                  else (ps2, evs, false)
            else (ps, [], false)
      | [] =>
          if IsLikelyCueTiming first then
            match ParseCue sink ps "" first [] with
            | (ps2, evs, ok) =>
                if ok then ({ ps2 with sawCue := true }, evs, true)
                else (ps2, evs, false)
          else (ps, [], false)

/-! ### Block reader

Modelled from the spec, §4.1 (text_readers.cc is not among the provided
sources): a stateful tokenizer over raw bytes.  `readerNext` removes and
returns the front blank-line-delimited group of non-blank lines when one
is complete; after flush the remaining buffered non-blank lines form one
final block.  Lines are `\n`-terminated with one trailing `\r` normalized
away; blank lines are pure separators and consecutive blanks collapse. -/

/-- Strip one trailing carriage return from a line. -/
def stripCR (l : List Char) : List Char :=
  match l.reverse with
  | '\r' :: t => t.reverse
  | _ => l

/-- Split a raw buffer into its complete (newline-terminated) lines and
the trailing not-yet-terminated piece. -/
def toLines : List Char → List (List Char) × List Char
  | [] => ([], [])
  | c :: rest =>
      let r := toLines rest
      if c = '\n' then ([] :: r.1, r.2)
      else
        match r.1 with
        | [] => ([], c :: r.2)
        | l :: ls => ((c :: l) :: ls, r.2)

/-- Flatten complete lines back to raw bytes (each line regains its
terminating newline). -/
def linesFlat : List (List Char) → List Char
  | [] => []
  | l :: ls => l ++ '\n' :: linesFlat ls

/-- Rebuild a raw buffer from complete lines and a trailing piece. -/
def rebuild (ls : List (List Char)) (pend : List Char) : List Char :=
  linesFlat ls ++ pend

/-- Modelled from the spec: the core of `nextBlock`.  Walks the complete
lines, skipping leading blank lines, accumulating non-blank lines
(reversed) until a terminating blank line; when flushed, the trailing
piece becomes the final line and any accumulated lines form the final
block. -/
def collectBlock (flushed : Bool) (pend : List Char) (acc : List String) :
    List (List Char) → Option (List String × List Char)
  | [] =>
      if flushed then
        if stripCR pend = [] then
          if acc = [] then none else some (acc.reverse, [])
        else some (((⟨stripCR pend⟩ : String) :: acc).reverse, [])
      else none
  | l :: rest =>
      if stripCR l = [] then
        if acc = [] then collectBlock flushed pend acc rest
        else some (acc.reverse, rebuild rest pend)
      else collectBlock flushed pend ((⟨stripCR l⟩ : String) :: acc) rest

/-- Modelled from the spec: `nextBlock` — return the front complete block
and the remaining buffer, or `none` (consuming nothing) when no complete
block is available yet. -/
def readerNext (buf : List Char) (flushed : Bool) :
    Option (List String × List Char) :=
  collectBlock flushed (toLines buf).2 [] (toLines buf).1

/-! ### The Parse driver (webvtt_parser.cc) -/

/-- `block.size() == 1 && (block[0] == "WEBVTT" || block[0] ==
"\xEF\xBB\xBFWEBVTT")`: the header token, optionally prefixed by the
three-byte UTF-8 BOM. -/
def headerBOM : String :=
  ⟨Char.ofNat 0xEF :: Char.ofNat 0xBB :: Char.ofNat 0xBF :: "WEBVTT".data⟩

/-- The header validation of `WebVttParser::Parse`. -/
def checkHeader (block : List String) : Bool :=
  match block with
  | [b] => b = "WEBVTT" || b = headerBOM
  | _ => false

/-- The drain loop of `WebVttParser::Parse` (`while (reader_.Next(&block))
{ if (!ParseBlock(block)) return false; }`), fuelled so that it is
structurally recursive; `buf.length + 1` fuel always suffices because each
extracted block consumes at least one buffered byte. -/
def drainLoop (sink : SampleSink) :
    Nat → PState → List Char → Bool → PState × List Char × List Event × Bool
  | 0, ps, buf, _ => (ps, buf, [], true)
  | fuel + 1, ps, buf, flushed =>
      match readerNext buf flushed with
      | none => (ps, buf, [], true)
      | some (block, rest) =>
          match ParseBlock sink ps block with
          | (ps2, evs, ok) =>
              if ok then
                match drainLoop sink fuel ps2 rest flushed with
                | (ps3, buf3, evs2, r) => (ps3, buf3, evs ++ evs2, r)
              else (ps2, rest, evs, false)

/-- The drain loop with always-sufficient fuel. -/
def drainAll (sink : SampleSink) (ps : PState) (buf : List Char)
    (flushed : Bool) : PState × List Char × List Event × Bool :=
  drainLoop sink (buf.length + 1) ps buf flushed

/-- `WebVttParser::Parse()` (the private zero-argument overload): consume
and validate the header block when uninitialized, then drain and classify
all available complete blocks.  Result: new parser state, remaining
buffer, emissions, and the call's success flag. -/
def ParseCall (sink : SampleSink) (ps : PState) (buf : List Char)
    (flushed : Bool) : PState × List Char × List Event × Bool :=
  if ps.initialized then drainAll sink ps buf flushed
  else
    match readerNext buf flushed with
    | none => (ps, buf, [], true)
    | some (block, rest) =>
        if checkHeader block then
          drainAll sink { ps with initialized := true } rest flushed
        else (ps, rest, [], false)

/-! ### The public interface (Init / Parse(buf,size) / Flush) -/

/-- The whole component's state: parser fields plus the block reader's
buffer and flushed flag. -/
structure MState where
  ps : PState
  buf : List Char
  flushed : Bool
deriving DecidableEq, Repr

/-- A freshly initialized parser. -/
def initMState : MState :=
  ⟨⟨false, false, false, ""⟩, [], false⟩

/-- An opaque decryption key source capability (its content is never
inspected by this parser). -/
inductive KeySource where
  | mk
deriving DecidableEq, Repr

/-- `WebVttParser::Init`: `DCHECK(!decryption_key_source)` — supplying a
decryption key source trips the assertion, modelled as initialization
yielding no parser (`none`); otherwise the fresh parser state. -/
def InitParser (decryption_key_source : Option KeySource) : Option MState :=
  match decryption_key_source with
  | some _ => none
  | none => some initMState

/-- `WebVttParser::Parse(buf, size)`: push the bytes, then drain. -/
def feed (sink : SampleSink) (st : MState) (data : List Char) :
    MState × List Event × Bool :=
  match ParseCall sink st.ps (st.buf ++ data) st.flushed with
  | (ps, buf, evs, ok) => (⟨ps, buf, st.flushed⟩, evs, ok)

/-- `WebVttParser::Flush`: mark the reader flushed, then drain. -/
def flushCall (sink : SampleSink) (st : MState) : MState × List Event × Bool :=
  match ParseCall sink st.ps st.buf true with
  | (ps, buf, evs, ok) => (⟨ps, buf, true⟩, evs, ok)

/-- Feed a list of chunks in order, concatenating emissions and conjoining
the per-call results. -/
def feedMany (sink : SampleSink) (st : MState) :
    List (List Char) → MState × List Event × Bool
  | [] => (st, [], true)
  | d :: ds =>
      match feed sink st d with
      | (st1, evs1, ok1) =>
          match feedMany sink st1 ds with
          | (st2, evs2, ok2) => (st2, evs1 ++ evs2, ok1 && ok2)

/-- Run a whole document delivered as the given chunks, followed by
`Flush`: all emissions in order, and whether every call succeeded. -/
def runChunks (sink : SampleSink) (chunks : List (List Char)) :
    List Event × Bool :=
  match feedMany sink initMState chunks with
  | (st1, evs1, ok1) =>
      match flushCall sink st1 with
      | (_, evs2, ok2) => (evs1 ++ evs2, ok1 && ok2)

/-- How `ParseBlock` wraps a `ParseCue` result: set `saw_cue_` exactly on
success. -/
def cueRes (r : PState × List Event × Bool) : PState × List Event × Bool :=
  match r with
  | (ps2, evs, ok) =>
      if ok then ({ ps2 with sawCue := true }, evs, true) else (ps2, evs, false)

/-- The style/region effect of `ParseBlock`: drop when a cue has been
seen, otherwise append to the config. -/
def styleRes (ps : PState) (block : List String) : PState × List Event × Bool :=
  if ps.sawCue then (ps, [], true)
  else ({ ps with styleRegionConfig := UpdateConfig block ps.styleRegionConfig },
        [], true)

/-- Is an emission the stream-info dispatch? -/
def isStreamInfoEv : Event → Bool
  | Event.streamInfo _ => true
  | Event.sample _ _ => false

/-- Number of stream-info dispatches among the emissions. -/
def siCount (evs : List Event) : Nat :=
  (evs.filter isStreamInfoEv).length

/-- The dispatched flag as a count. -/
def siBit (b : Bool) : Nat := if b then 1 else 0

/-- The `parsed_time` condition of `ParseCue`: at least 3 timing-line
tokens, token 1 exactly "-->", tokens 0 and 2 valid cue timestamps. -/
def cueTimingOk (timing : String) : Bool :=
  match splitTimingLine timing with
  | t0 :: t1 :: t2 :: _ =>
      decide (t1 = "-->") && (WebVttTimestampToMs t0).isSome &&
        (WebVttTimestampToMs t2).isSome
  | _ => false

/-- A header plus one unclassifiable block (terminated). -/
def chunkBad1 : List Char := "WEBVTT\n\nbad1\n\n".data

/-- A second unclassifiable block followed by a well-formed cue. -/
def chunkBad2Cue : List Char := "bad2\n\n00:00:00.000 --> 00:00:01.000\nhi\n".data

/-- A header plus one unclassifiable block (terminated). -/
def chunkHdrBad : List Char := "WEBVTT\n\nbad\n\n".data

/-- One well-formed, terminated cue block. -/
def chunkGoodCue : List Char := "00:00:00.000 --> 00:00:01.000\nhi\n\n".data

theorem siCount_append (a b : List Event) :
    siCount (a ++ b) = siCount a + siCount b := by
  simp [siCount, List.filter_append]

/-! ### Reader lemmas -/

theorem linesFlat_append (a b : List (List Char)) :
    linesFlat (a ++ b) = linesFlat a ++ linesFlat b := by
  induction a with
  | nil => rfl
  | cons l ls ih => simp [linesFlat, ih]

theorem rebuild_append_right (ls : List (List Char)) (p q : List Char) :
    rebuild ls (p ++ q) = rebuild ls p ++ q := by
  simp [rebuild]

theorem rebuild_append_lines (a b : List (List Char)) (p : List Char) :
    rebuild (a ++ b) p = rebuild a (rebuild b p) := by
  simp [rebuild, linesFlat_append]

theorem rebuild_toLines (buf : List Char) :
    rebuild (toLines buf).1 (toLines buf).2 = buf := by
  induction buf with
  | nil => rfl
  | cons c rest ih =>
    simp only [toLines]
    by_cases hc : c = '\n'
    · subst hc
      simpa [rebuild, linesFlat] using ih
    · simp only [if_neg hc]
      cases hr : (toLines rest).1 with
      | nil =>
          rw [hr] at ih
          simpa [rebuild, linesFlat] using ih
      | cons l ls =>
          rw [hr] at ih
          simpa [rebuild, linesFlat] using ih

theorem toLines_append (a b : List Char) :
    toLines (a ++ b) =
      ((toLines a).1 ++ (toLines ((toLines a).2 ++ b)).1,
       (toLines ((toLines a).2 ++ b)).2) := by
  induction a with
  | nil => simp [toLines]
  | cons c rest ih =>
    by_cases hc : c = '\n'
    · subst hc
      show toLines ('\n' :: (rest ++ b)) = _
      simp only [toLines, List.append_eq, if_pos rfl]
      rw [ih]
      simp [toLines]
    · show toLines (c :: (rest ++ b)) = _
      simp only [toLines, List.append_eq, if_neg hc]
      rw [ih]
      cases hr : (toLines rest).1 with
      | nil =>
          simp only [hr, List.nil_append]
          cases hm : (toLines ((toLines rest).2 ++ b)).1 with
          | nil => simp [toLines, if_neg hc, hr, hm]
          | cons m ms => simp [toLines, if_neg hc, hr, hm]
      | cons l ls => simp [toLines, if_neg hc, hr]

theorem collectBlock_nonempty {fl : Bool} {p : List Char} :
    ∀ {ls : List (List Char)} {acc b : List String} {rest : List Char},
      collectBlock fl p acc ls = some (b, rest) → b ≠ [] := by
  intro ls
  induction ls with
  | nil =>
      intro acc b rest h
      simp only [collectBlock] at h
      split at h
      · split at h
        · split at h
          · exact absurd h (by simp)
          · next hacc =>
              rw [Option.some.injEq, Prod.mk.injEq] at h
              obtain ⟨hb, -⟩ := h
              subst hb
              simpa using hacc
        · rw [Option.some.injEq, Prod.mk.injEq] at h
          obtain ⟨hb, -⟩ := h
          subst hb
          simp
      · exact absurd h (by simp)
  | cons l t ih =>
      intro acc b rest h
      simp only [collectBlock] at h
      split at h
      · split at h
        · exact ih h
        · next hacc =>
            rw [Option.some.injEq, Prod.mk.injEq] at h
            obtain ⟨hb, -⟩ := h
            subst hb
            simpa using hacc
      · exact ih h

theorem rebuild_cons_length (l : List Char) (ls : List (List Char))
    (p : List Char) :
    (rebuild (l :: ls) p).length = l.length + 1 + (rebuild ls p).length := by
  simp [rebuild, linesFlat]
  omega

theorem collectBlock_length_le {fl : Bool} {p : List Char} :
    ∀ {ls : List (List Char)} {acc b : List String} {rest : List Char},
      collectBlock fl p acc ls = some (b, rest) →
      rest.length ≤ (rebuild ls p).length := by
  intro ls
  induction ls with
  | nil =>
      intro acc b rest h
      simp only [collectBlock] at h
      split at h
      · split at h
        · split at h
          · exact absurd h (by simp)
          · rw [Option.some.injEq, Prod.mk.injEq] at h
            obtain ⟨-, hr⟩ := h
            subst hr
            simp [rebuild, linesFlat]
        · rw [Option.some.injEq, Prod.mk.injEq] at h
          obtain ⟨-, hr⟩ := h
          subst hr
          simp [rebuild, linesFlat]
      · exact absurd h (by simp)
  | cons l t ih =>
      intro acc b rest h
      simp only [collectBlock] at h
      split at h
      · split at h
        · exact le_trans (ih h) (by rw [rebuild_cons_length]; omega)
        · rw [Option.some.injEq, Prod.mk.injEq] at h
          obtain ⟨-, hr⟩ := h
          subst hr
          rw [rebuild_cons_length]
          omega
      · exact le_trans (ih h) (by rw [rebuild_cons_length]; omega)

theorem collectBlock_length_lt {fl : Bool} {p : List Char} :
    ∀ {ls : List (List Char)} {b : List String} {rest : List Char},
      collectBlock fl p [] ls = some (b, rest) →
      rest.length < (rebuild ls p).length := by
  intro ls
  induction ls with
  | nil =>
      intro b rest h
      simp only [collectBlock] at h
      split at h
      · split at h
        · simp at h
        · next hne =>
            rw [Option.some.injEq, Prod.mk.injEq] at h
            obtain ⟨-, hr⟩ := h
            subst hr
            have hp : p ≠ [] := by
              intro hp
              subst hp
              simp [stripCR] at hne
            simp only [rebuild, linesFlat, List.nil_append, List.length_nil]
            exact List.length_pos.mpr hp
      · exact absurd h (by simp)
  | cons l t ih =>
      intro b rest h
      simp only [collectBlock] at h
      split at h
      · split at h
        · exact lt_of_lt_of_le (ih h) (by rw [rebuild_cons_length]; omega)
        · next hacc => exact absurd (by simp) hacc
      · exact lt_of_le_of_lt (collectBlock_length_le h)
          (by rw [rebuild_cons_length]; omega)

theorem readerNext_length {buf : List Char} {fl : Bool} {b : List String}
    {rest : List Char} (h : readerNext buf fl = some (b, rest)) :
    rest.length < buf.length := by
  unfold readerNext at h
  have := collectBlock_length_lt h
  rwa [rebuild_toLines] at this

theorem readerNext_nonempty {buf : List Char} {fl : Bool} {b : List String}
    {rest : List Char} (h : readerNext buf fl = some (b, rest)) : b ≠ [] :=
  collectBlock_nonempty h

theorem collectBlock_extend {p : List Char} :
    ∀ {ls : List (List Char)} {acc b : List String} {rest : List Char},
      collectBlock false p acc ls = some (b, rest) →
      ∃ tl : List (List Char), rest = rebuild tl p ∧
        ∀ (p2 : List Char) (ext : List (List Char)),
          collectBlock false p2 acc (ls ++ ext) =
            some (b, rebuild (tl ++ ext) p2) := by
  intro ls
  induction ls with
  | nil => intro acc b rest h; exact absurd h (by simp [collectBlock])
  | cons l t ih =>
      intro acc b rest h
      simp only [collectBlock] at h
      split at h
      · next hblank =>
          split at h
          · next hacc =>
              obtain ⟨tl, hrest, hext⟩ := ih h
              exact ⟨tl, hrest, fun p2 ext => by
                simpa [collectBlock, hblank, hacc] using hext p2 ext⟩
          · next hacc =>
              rw [Option.some.injEq, Prod.mk.injEq] at h
              obtain ⟨hb, hr⟩ := h
              exact ⟨t, hr.symm, fun p2 ext => by
                simp [collectBlock, hblank, hacc, hb]⟩
      · next hblank =>
          obtain ⟨tl, hrest, hext⟩ := ih h
          exact ⟨tl, hrest, fun p2 ext => by
            simpa [collectBlock, hblank] using hext p2 ext⟩

theorem readerNext_extend {buf : List Char} {b : List String}
    {rest : List Char} (h : readerNext buf false = some (b, rest))
    (ext : List Char) :
    readerNext (buf ++ ext) false = some (b, rest ++ ext) := by
  unfold readerNext at h ⊢
  obtain ⟨tl, hrest, hext⟩ := collectBlock_extend h
  rw [toLines_append]
  rw [hext (toLines ((toLines buf).2 ++ ext)).2 (toLines ((toLines buf).2 ++ ext)).1]
  rw [rebuild_append_lines, rebuild_toLines, rebuild_append_right, ← hrest]

/-! ### Drain loop lemmas -/

theorem drainLoop_congr (sink : SampleSink) :
    ∀ (f1 : Nat) {f2 : Nat} {ps : PState} {buf : List Char} {fl : Bool},
      buf.length < f1 → buf.length < f2 →
      drainLoop sink f1 ps buf fl = drainLoop sink f2 ps buf fl := by
  intro f1
  induction f1 with
  | zero => intro f2 ps buf fl h1 _; exact absurd h1 (by omega)
  | succ m ih =>
      intro f2 ps buf fl h1 h2
      cases f2 with
      | zero => exact absurd h2 (by omega)
      | succ k =>
          cases hn : readerNext buf fl with
          | none => simp only [drainLoop, hn]
          | some br =>
              obtain ⟨block, rest⟩ := br
              have hlen := readerNext_length hn
              rcases hpb : ParseBlock sink ps block with ⟨ps2, evs, ok⟩
              simp only [drainLoop, hn, hpb]
              cases ok with
              | false => simp
              | true =>
                  have hm : rest.length < m := by omega
                  have hk : rest.length < k := by omega
                  rw [ih hm hk]

theorem drainAll_eq (sink : SampleSink) (ps : PState) (buf : List Char)
    (fl : Bool) :
    drainAll sink ps buf fl =
      match readerNext buf fl with
      | none => (ps, buf, [], true)
      | some (block, rest) =>
          match ParseBlock sink ps block with
          | (ps2, evs, ok) =>
              if ok then
                match drainAll sink ps2 rest fl with
                | (ps3, buf3, evs2, r) => (ps3, buf3, evs ++ evs2, r)
              else (ps2, rest, evs, false) := by
  show drainLoop sink (buf.length + 1) ps buf fl = _
  cases hn : readerNext buf fl with
  | none => simp only [drainLoop, hn]
  | some br =>
      obtain ⟨block, rest⟩ := br
      have hlen := readerNext_length hn
      rcases hpb : ParseBlock sink ps block with ⟨ps2, evs, ok⟩
      simp only [drainLoop, hn, hpb]
      cases ok with
      | false => simp
      | true =>
          have heq : drainLoop sink buf.length ps2 rest fl = drainAll sink ps2 rest fl :=
            drainLoop_congr sink buf.length (by omega) (by omega)
          simp only [heq]

/-! ### ParseBlock branch lemmas -/

/-- A line that may be a cue id (no "-->") is not a timing line. -/
theorem MaybeCueId_not_timing {s : String} (h : MaybeCueId s = true) :
    IsLikelyCueTiming s = false := by
  unfold MaybeCueId at h
  unfold IsLikelyCueTiming
  cases hh : hasArrow s.data
  · rfl
  · rw [hh] at h
    exact absurd h (by simp)

theorem ParseBlock_note {first : String} (h : IsLikelyNote first = true)
    (sink : SampleSink) (ps : PState) (rest : List String) :
    ParseBlock sink ps (first :: rest) = (ps, [], true) := by
  simp [ParseBlock, h]

theorem ParseBlock_style {first : String} (h1 : IsLikelyNote first = false)
    (h2 : IsLikelyStyle first = true) (sink : SampleSink) (ps : PState)
    (rest : List String) :
    ParseBlock sink ps (first :: rest) = styleRes ps (first :: rest) := by
  simp [ParseBlock, styleRes, h1, h2]

theorem ParseBlock_region {first : String} (h1 : IsLikelyNote first = false)
    (h2 : IsLikelyStyle first = false) (h3 : IsLikelyRegion first = true)
    (sink : SampleSink) (ps : PState) (rest : List String) :
    ParseBlock sink ps (first :: rest) = styleRes ps (first :: rest) := by
  simp [ParseBlock, styleRes, h1, h2, h3]

theorem ParseBlock_cueId {first second : String}
    (h1 : IsLikelyNote first = false) (h2 : IsLikelyStyle first = false)
    (h3 : IsLikelyRegion first = false) (hm : MaybeCueId first = true)
    (ht : IsLikelyCueTiming second = true) (sink : SampleSink) (ps : PState)
    (rest2 : List String) :
    ParseBlock sink ps (first :: second :: rest2) =
      cueRes (ParseCue sink ps first second rest2) := by
  have hft := MaybeCueId_not_timing hm
  rcases hpc : ParseCue sink ps first second rest2 with ⟨ps2, evs, ok⟩
  simp only [ParseBlock, h1, h2, h3, hm, ht, hft, hpc, cueRes,
    Bool.false_eq_true, if_false, Bool.and_self]
  cases ok <;> simp [hft]

theorem ParseBlock_cueNoId {first : String} {rest : List String}
    (h1 : IsLikelyNote first = false) (h2 : IsLikelyStyle first = false)
    (h3 : IsLikelyRegion first = false)
    (hg : ∀ second rest2, rest = second :: rest2 →
      (MaybeCueId first && IsLikelyCueTiming second) = false)
    (ht : IsLikelyCueTiming first = true) (sink : SampleSink) (ps : PState) :
    ParseBlock sink ps (first :: rest) =
      cueRes (ParseCue sink ps "" first rest) := by
  rcases hpc : ParseCue sink ps "" first rest with ⟨ps2, evs, ok⟩
  cases rest with
  | nil =>
      simp only [ParseBlock, h1, h2, h3, ht, hpc, cueRes,
        Bool.false_eq_true, if_false]
      cases ok <;> simp
  | cons second rest2 =>
      have hgg := hg second rest2 rfl
      simp only [ParseBlock, h1, h2, h3, ht, hgg, hpc, cueRes,
        Bool.false_eq_true, if_false]
      cases ok <;> simp

theorem ParseBlock_fail {first : String} {rest : List String}
    (h1 : IsLikelyNote first = false) (h2 : IsLikelyStyle first = false)
    (h3 : IsLikelyRegion first = false)
    (hg : ∀ second rest2, rest = second :: rest2 →
      (MaybeCueId first && IsLikelyCueTiming second) = false)
    (ht : IsLikelyCueTiming first = false) (sink : SampleSink) (ps : PState) :
    ParseBlock sink ps (first :: rest) = (ps, [], false) := by
  cases rest with
  | nil => simp [ParseBlock, h1, h2, h3, ht]
  | cons second rest2 =>
      have hgg := hg second rest2 rfl
      simp [ParseBlock, h1, h2, h3, ht, hgg]

/-- Every `ParseBlock` outcome has one of four shapes: ignored block,
unclassifiable block, style/region append, or a wrapped `ParseCue`. -/
theorem ParseBlock_shape (sink : SampleSink) (ps : PState)
    (block : List String) :
    ParseBlock sink ps block = (ps, [], true) ∨
    ParseBlock sink ps block = (ps, [], false) ∨
    (∃ blk, ParseBlock sink ps block = styleRes ps blk) ∨
    (∃ id timing payload,
      ParseBlock sink ps block = cueRes (ParseCue sink ps id timing payload)) := by
  cases block with
  | nil => exact Or.inr (Or.inl rfl)
  | cons first rest =>
      cases h1 : IsLikelyNote first with
      | true => exact Or.inl (ParseBlock_note h1 sink ps rest)
      | false =>
      cases h2 : IsLikelyStyle first with
      | true =>
          exact Or.inr (Or.inr (Or.inl ⟨first :: rest, ParseBlock_style h1 h2 sink ps rest⟩))
      | false =>
      cases h3 : IsLikelyRegion first with
      | true =>
          exact Or.inr (Or.inr (Or.inl ⟨first :: rest, ParseBlock_region h1 h2 h3 sink ps rest⟩))
      | false =>
      cases rest with
      | nil =>
          cases ht : IsLikelyCueTiming first with
          | true =>
              exact Or.inr (Or.inr (Or.inr ⟨"", first, [],
                ParseBlock_cueNoId h1 h2 h3 (by intro s r2 h; cases h) ht sink ps⟩))
          | false =>
              exact Or.inr (Or.inl
                (ParseBlock_fail h1 h2 h3 (by intro s r2 h; cases h) ht sink ps))
      | cons second rest2 =>
          cases h5 : (MaybeCueId first && IsLikelyCueTiming second) with
          | true =>
              rw [Bool.and_eq_true] at h5
              exact Or.inr (Or.inr (Or.inr ⟨first, second, rest2,
                ParseBlock_cueId h1 h2 h3 h5.1 h5.2 sink ps rest2⟩))
          | false =>
              cases ht : IsLikelyCueTiming first with
              | true =>
                  exact Or.inr (Or.inr (Or.inr ⟨"", first, second :: rest2,
                    ParseBlock_cueNoId h1 h2 h3
                      (by intro s r2 h; cases h; exact h5) ht sink ps⟩))
              | false =>
                  exact Or.inr (Or.inl
                    (ParseBlock_fail h1 h2 h3
                      (by intro s r2 h; cases h; exact h5) ht sink ps))

/-! ### State preservation -/

theorem ParseCue_initialized (sink : SampleSink) (ps : PState)
    (id timing : String) (payload : List String) :
    (ParseCue sink ps id timing payload).1.initialized = ps.initialized := by
  unfold ParseCue
  repeat' split
  all_goals rfl

theorem ParseCue_sawCue (sink : SampleSink) (ps : PState)
    (id timing : String) (payload : List String) :
    (ParseCue sink ps id timing payload).1.sawCue = ps.sawCue := by
  unfold ParseCue
  repeat' split
  all_goals rfl

theorem ParseCue_styleConfig (sink : SampleSink) (ps : PState)
    (id timing : String) (payload : List String) :
    (ParseCue sink ps id timing payload).1.styleRegionConfig =
      ps.styleRegionConfig := by
  unfold ParseCue
  repeat' split
  all_goals rfl

theorem cueRes_initialized (r : PState × List Event × Bool) :
    (cueRes r).1.initialized = r.1.initialized := by
  rcases r with ⟨ps2, evs, ok⟩
  cases ok <;> simp [cueRes]

theorem ParseBlock_initialized (sink : SampleSink) (ps : PState)
    (block : List String) :
    (ParseBlock sink ps block).1.initialized = ps.initialized := by
  rcases ParseBlock_shape sink ps block with h | h | ⟨blk, h⟩ | ⟨id, t, p, h⟩
  · rw [h]
  · rw [h]
  · rw [h]
    unfold styleRes
    cases hs : ps.sawCue <;> simp
  · rw [h, cueRes_initialized, ParseCue_initialized]

theorem drainLoop_initialized (sink : SampleSink) :
    ∀ (fuel : Nat) (ps : PState) (buf : List Char) (fl : Bool),
      (drainLoop sink fuel ps buf fl).1.initialized = ps.initialized := by
  intro fuel
  induction fuel with
  | zero => intro ps buf fl; rfl
  | succ m ih =>
      intro ps buf fl
      cases hn : readerNext buf fl with
      | none => simp only [drainLoop, hn]
      | some br =>
          obtain ⟨block, rest⟩ := br
          rcases hpb : ParseBlock sink ps block with ⟨ps2, evs, ok⟩
          have hpbi : ps2.initialized = ps.initialized := by
            have := ParseBlock_initialized sink ps block
            rw [hpb] at this
            exact this
          simp only [drainLoop, hn, hpb]
          cases ok with
          | false => simpa using hpbi
          | true =>
              rcases hd : drainLoop sink m ps2 rest fl with ⟨ps3, buf3, evs2, r⟩
              have := ih ps2 rest fl
              rw [hd] at this
              simp only [hd]
              simpa using this.trans hpbi

theorem drainAll_initialized (sink : SampleSink) (ps : PState)
    (buf : List Char) (fl : Bool) :
    (drainAll sink ps buf fl).1.initialized = ps.initialized :=
  drainLoop_initialized sink (buf.length + 1) ps buf fl

/-! ### The stream-info dispatch invariant -/

/-- `ParseCue` conserves dispatches: emissions plus prior flag equal the
posterior flag. -/
theorem ParseCue_si (sink : SampleSink) (ps : PState) (id timing : String)
    (payload : List String) :
    siCount (ParseCue sink ps id timing payload).2.1 +
        siBit ps.streamInfoDispatched =
      siBit (ParseCue sink ps id timing payload).1.streamInfoDispatched := by
  unfold ParseCue
  repeat' split
  all_goals
    cases hd : ps.streamInfoDispatched <;>
      simp [dispatchEvs, siCount, siBit, isStreamInfoEv, hd]

theorem cueRes_si (r : PState × List Event × Bool) :
    siCount (cueRes r).2.1 = siCount r.2.1 ∧
      (cueRes r).1.streamInfoDispatched = r.1.streamInfoDispatched := by
  rcases r with ⟨ps2, evs, ok⟩
  cases ok <;> simp [cueRes]

theorem ParseBlock_si (sink : SampleSink) (ps : PState) (block : List String) :
    siCount (ParseBlock sink ps block).2.1 + siBit ps.streamInfoDispatched =
      siBit (ParseBlock sink ps block).1.streamInfoDispatched := by
  rcases ParseBlock_shape sink ps block with h | h | ⟨blk, h⟩ | ⟨id, t, p, h⟩
  · rw [h]; simp [siCount]
  · rw [h]; simp [siCount]
  · rw [h]
    unfold styleRes
    cases hs : ps.sawCue <;> simp [siCount]
  · rw [h]
    obtain ⟨he, hf⟩ := cueRes_si (ParseCue sink ps id t p)
    rw [he, hf]
    exact ParseCue_si sink ps id t p

theorem drainLoop_si (sink : SampleSink) :
    ∀ (fuel : Nat) (ps : PState) (buf : List Char) (fl : Bool),
      siCount (drainLoop sink fuel ps buf fl).2.2.1 +
          siBit ps.streamInfoDispatched =
        siBit (drainLoop sink fuel ps buf fl).1.streamInfoDispatched := by
  intro fuel
  induction fuel with
  | zero => intro ps buf fl; simp [drainLoop, siCount]
  | succ m ih =>
      intro ps buf fl
      cases hn : readerNext buf fl with
      | none => simp [drainLoop, hn, siCount]
      | some br =>
          obtain ⟨block, rest⟩ := br
          rcases hpb : ParseBlock sink ps block with ⟨ps2, evs, ok⟩
          have hstep := ParseBlock_si sink ps block
          rw [hpb] at hstep
          simp only [drainLoop, hn, hpb]
          cases ok with
          | false => simpa using hstep
          | true =>
              rcases hd : drainLoop sink m ps2 rest fl with ⟨ps3, buf3, evs2, r⟩
              have hrec := ih ps2 rest fl
              rw [hd] at hrec
              simp only [hd, if_true]
              simp only [siCount_append]
              simp only at hrec hstep
              omega

theorem drainAll_si (sink : SampleSink) (ps : PState) (buf : List Char)
    (fl : Bool) :
    siCount (drainAll sink ps buf fl).2.2.1 + siBit ps.streamInfoDispatched =
      siBit (drainAll sink ps buf fl).1.streamInfoDispatched :=
  drainLoop_si sink (buf.length + 1) ps buf fl

theorem ParseCall_si (sink : SampleSink) (ps : PState) (buf : List Char)
    (fl : Bool) :
    siCount (ParseCall sink ps buf fl).2.2.1 + siBit ps.streamInfoDispatched =
      siBit (ParseCall sink ps buf fl).1.streamInfoDispatched := by
  unfold ParseCall
  split
  · exact drainAll_si sink ps buf fl
  · split
    · simp [siCount]
    · split
      · exact drainAll_si sink _ _ fl
      · simp [siCount]

theorem feed_si (sink : SampleSink) (st : MState) (data : List Char) :
    siCount (feed sink st data).2.1 + siBit st.ps.streamInfoDispatched =
      siBit (feed sink st data).1.ps.streamInfoDispatched := by
  unfold feed
  rcases hp : ParseCall sink st.ps (st.buf ++ data) st.flushed with ⟨ps, buf, evs, ok⟩
  have := ParseCall_si sink st.ps (st.buf ++ data) st.flushed
  rw [hp] at this
  simpa using this

theorem flushCall_si (sink : SampleSink) (st : MState) :
    siCount (flushCall sink st).2.1 + siBit st.ps.streamInfoDispatched =
      siBit (flushCall sink st).1.ps.streamInfoDispatched := by
  unfold flushCall
  rcases hp : ParseCall sink st.ps st.buf true with ⟨ps, buf, evs, ok⟩
  have := ParseCall_si sink st.ps st.buf true
  rw [hp] at this
  simpa using this

theorem feedMany_si (sink : SampleSink) :
    ∀ (chunks : List (List Char)) (st : MState),
      siCount (feedMany sink st chunks).2.1 + siBit st.ps.streamInfoDispatched =
        siBit (feedMany sink st chunks).1.ps.streamInfoDispatched := by
  intro chunks
  induction chunks with
  | nil => intro st; simp [feedMany, siCount]
  | cons d ds ih =>
      intro st
      unfold feedMany
      rcases hf : feed sink st d with ⟨st1, evs1, ok1⟩
      rcases hm : feedMany sink st1 ds with ⟨st2, evs2, ok2⟩
      have h1 := feed_si sink st d
      rw [hf] at h1
      have h2 := ih st1
      rw [hm] at h2
      simp only [hf, hm, siCount_append]
      simp only at h1 h2
      omega

/-! ### Chunk-extension lemmas -/

/-- Extending the buffer after a fully successful drain: the new drain
first replays the old blocks, then continues on the extended leftover. -/
theorem drain_extend_success (sink : SampleSink) :
    ∀ (n : Nat) (ps : PState) (buf : List Char) (ps1 : PState)
      (buf1 : List Char) (evs : List Event),
      buf.length ≤ n →
      drainAll sink ps buf false = (ps1, buf1, evs, true) →
      ∀ ext : List Char,
        drainAll sink ps (buf ++ ext) false =
          match drainAll sink ps1 (buf1 ++ ext) false with
          | (ps2, buf2, evs2, r) => (ps2, buf2, evs ++ evs2, r) := by
  intro n
  induction n with
  | zero =>
      intro ps buf ps1 buf1 evs hlen h ext
      have hbuf : buf = [] := List.length_eq_zero.mp (by omega)
      subst hbuf
      rw [drainAll_eq] at h
      have hn : readerNext ([] : List Char) false = none := rfl
      simp only [hn] at h
      simp only [Prod.mk.injEq] at h
      obtain ⟨hps, hbuf1, hevs, -⟩ := h
      subst hps hbuf1 hevs
      rcases hX : drainAll sink ps ([] ++ ext) false with ⟨a, b, c, r⟩
      simp [hX]
  | succ m ih =>
      intro ps buf ps1 buf1 evs hlen h ext
      rw [drainAll_eq] at h
      cases hn : readerNext buf false with
      | none =>
          simp only [hn] at h
          simp only [Prod.mk.injEq] at h
          obtain ⟨hps, hbuf1, hevs, -⟩ := h
          subst hps hbuf1 hevs
          rcases hX : drainAll sink ps (buf ++ ext) false with ⟨a, b, c, r⟩
          simp [hX]
      | some br =>
          obtain ⟨block, rest⟩ := br
          have hlen2 := readerNext_length hn
          simp only [hn] at h
          rcases hpb : ParseBlock sink ps block with ⟨ps2, evsb, ok⟩
          simp only [hpb] at h
          cases ok with
          | false => simp at h
          | true =>
              rcases hd : drainAll sink ps2 rest false with ⟨a, b, c, r⟩
              simp only [hd] at h
              simp only [if_true, Prod.mk.injEq] at h
              obtain ⟨ha, hb, hevs, hr⟩ := h
              subst ha hb hr
              have hrest : rest.length ≤ m := by omega
              have hIH := ih ps2 rest a b c hrest hd ext
              rw [drainAll_eq]
              simp only [readerNext_extend hn ext, hpb, eq_self_iff_true, if_true]
              rw [hIH]
              rcases hY : drainAll sink a (b ++ ext) false with ⟨a2, b2, c2, r2⟩
              simp [hY, ← hevs, List.append_assoc]

/-- Extending the buffer after a failed drain: the failure replays
identically, with the extension appended to the leftover buffer. -/
theorem drain_extend_fail (sink : SampleSink) :
    ∀ (n : Nat) (ps : PState) (buf : List Char) (ps1 : PState)
      (buf1 : List Char) (evs : List Event),
      buf.length ≤ n →
      drainAll sink ps buf false = (ps1, buf1, evs, false) →
      ∀ ext : List Char,
        drainAll sink ps (buf ++ ext) false = (ps1, buf1 ++ ext, evs, false) := by
  intro n
  induction n with
  | zero =>
      intro ps buf ps1 buf1 evs hlen h ext
      have hbuf : buf = [] := List.length_eq_zero.mp (by omega)
      subst hbuf
      rw [drainAll_eq] at h
      have hn : readerNext ([] : List Char) false = none := rfl
      simp only [hn] at h
      simp at h
  | succ m ih =>
      intro ps buf ps1 buf1 evs hlen h ext
      rw [drainAll_eq] at h
      cases hn : readerNext buf false with
      | none =>
          simp only [hn] at h
          simp at h
      | some br =>
          obtain ⟨block, rest⟩ := br
          have hlen2 := readerNext_length hn
          simp only [hn] at h
          rcases hpb : ParseBlock sink ps block with ⟨ps2, evsb, ok⟩
          simp only [hpb] at h
          cases ok with
          | false =>
              simp only [Bool.false_eq_true, if_false, Prod.mk.injEq] at h
              obtain ⟨hps, hbuf1, hevs, -⟩ := h
              subst hps hbuf1 hevs
              rw [drainAll_eq]
              simp only [readerNext_extend hn ext, hpb]
              simp
          | true =>
              rcases hd : drainAll sink ps2 rest false with ⟨a, b, c, r⟩
              simp only [hd] at h
              simp only [if_true, Prod.mk.injEq] at h
              obtain ⟨ha, hb, hevs, hr⟩ := h
              subst ha hb hr
              have hrest : rest.length ≤ m := by omega
              have hIH := ih ps2 rest a b c hrest hd ext
              rw [drainAll_eq]
              simp only [readerNext_extend hn ext, hpb, eq_self_iff_true, if_true]
              simp only [hIH]
              simp [← hevs]

/-- A fully successful drain leaves a buffer with no complete block. -/
theorem drain_success_none (sink : SampleSink) :
    ∀ (n : Nat) (ps : PState) (buf : List Char) (fl : Bool) (ps1 : PState)
      (buf1 : List Char) (evs : List Event),
      buf.length ≤ n →
      drainAll sink ps buf fl = (ps1, buf1, evs, true) →
      readerNext buf1 fl = none := by
  intro n
  induction n with
  | zero =>
      intro ps buf fl ps1 buf1 evs hlen h
      have hbuf : buf = [] := List.length_eq_zero.mp (by omega)
      subst hbuf
      rw [drainAll_eq] at h
      cases hn : readerNext ([] : List Char) fl with
      | none =>
          simp only [hn] at h
          simp only [Prod.mk.injEq] at h
          obtain ⟨-, hbuf1, -, -⟩ := h
          subst hbuf1
          exact hn
      | some br => exact absurd (readerNext_length hn) (by simp)
  | succ m ih =>
      intro ps buf fl ps1 buf1 evs hlen h
      rw [drainAll_eq] at h
      cases hn : readerNext buf fl with
      | none =>
          simp only [hn] at h
          simp only [Prod.mk.injEq] at h
          obtain ⟨-, hbuf1, -, -⟩ := h
          subst hbuf1
          exact hn
      | some br =>
          obtain ⟨block, rest⟩ := br
          have hlen2 := readerNext_length hn
          simp only [hn] at h
          rcases hpb : ParseBlock sink ps block with ⟨ps2, evsb, ok⟩
          simp only [hpb] at h
          cases ok with
          | false => simp at h
          | true =>
              rcases hd : drainAll sink ps2 rest fl with ⟨a, b, c, r⟩
              simp only [hd] at h
              simp only [if_true, Prod.mk.injEq] at h
              obtain ⟨-, hb, -, hr⟩ := h
              subst hb hr
              exact ih ps2 rest fl a b c (by omega) hd

/-! ### ParseCall extension lemmas -/

theorem ParseCall_extend_success (sink : SampleSink) {ps : PState}
    {buf : List Char} {ps1 : PState} {buf1 : List Char} {evs : List Event}
    (h : ParseCall sink ps buf false = (ps1, buf1, evs, true))
    (ext : List Char) :
    ParseCall sink ps (buf ++ ext) false =
      match ParseCall sink ps1 (buf1 ++ ext) false with
      | (ps2, buf2, evs2, r) => (ps2, buf2, evs ++ evs2, r) := by
  unfold ParseCall at h ⊢
  by_cases hi : ps.initialized = true
  · rw [if_pos hi] at h ⊢
    have hi1 : ps1.initialized = true := by
      have h2 := drainAll_initialized sink ps buf false
      rw [h] at h2
      have h3 : ps1.initialized = ps.initialized := by simpa using h2
      exact h3.trans hi
    rw [if_pos hi1]
    exact drain_extend_success sink buf.length ps buf ps1 buf1 evs le_rfl h ext
  · rw [if_neg hi] at h ⊢
    cases hn : readerNext buf false with
    | none =>
        simp only [hn] at h
        simp only [Prod.mk.injEq] at h
        obtain ⟨hps, hbuf1, hevs, -⟩ := h
        subst hps hbuf1 hevs
        rw [if_neg hi]
        rcases hX : (match readerNext (buf ++ ext) false with
          | none => (ps, buf ++ ext, ([] : List Event), true)
          | some (block, rest) =>
              if checkHeader block then
                drainAll sink { ps with initialized := true } rest false
              else (ps, rest, [], false)) with ⟨a, b, c, r⟩
        simp [hX]
    | some br =>
        obtain ⟨block, rest⟩ := br
        simp only [hn] at h
        simp only [readerNext_extend hn ext]
        cases hch : checkHeader block with
        | false =>
            rw [if_neg (by simp [hch])] at h
            simp at h
        | true =>
            rw [if_pos hch] at h
            rw [if_pos rfl]
            have hi1 : ps1.initialized = true := by
              have h2 := drainAll_initialized sink { ps with initialized := true } rest false
              rw [h] at h2
              simpa using h2
            rw [if_pos hi1]
            exact drain_extend_success sink rest.length
              { ps with initialized := true } rest ps1 buf1 evs le_rfl h ext

theorem ParseCall_extend_fail (sink : SampleSink) {ps : PState}
    {buf : List Char} {ps1 : PState} {buf1 : List Char} {evs : List Event}
    (h : ParseCall sink ps buf false = (ps1, buf1, evs, false))
    (ext : List Char) :
    ParseCall sink ps (buf ++ ext) false = (ps1, buf1 ++ ext, evs, false) := by
  unfold ParseCall at h ⊢
  by_cases hi : ps.initialized = true
  · rw [if_pos hi] at h ⊢
    exact drain_extend_fail sink buf.length ps buf ps1 buf1 evs le_rfl h ext
  · rw [if_neg hi] at h ⊢
    cases hn : readerNext buf false with
    | none => simp only [hn] at h; simp at h
    | some br =>
        obtain ⟨block, rest⟩ := br
        simp only [hn] at h
        simp only [readerNext_extend hn ext]
        cases hch : checkHeader block with
        | false =>
            rw [if_neg (by simp [hch])] at h
            simp only [Prod.mk.injEq] at h
            obtain ⟨hps, hbuf1, hevs, -⟩ := h
            subst hps hbuf1 hevs
            rw [if_neg (by simp)]
        | true =>
            rw [if_pos hch] at h
            rw [if_pos rfl]
            exact drain_extend_fail sink rest.length
              { ps with initialized := true } rest ps1 buf1 evs le_rfl h ext

/-- A successful `Parse` call leaves a buffer with no complete block. -/
theorem ParseCall_success_none (sink : SampleSink) {ps : PState}
    {buf : List Char} {fl : Bool} {ps1 : PState} {buf1 : List Char}
    {evs : List Event}
    (h : ParseCall sink ps buf fl = (ps1, buf1, evs, true)) :
    readerNext buf1 fl = none := by
  unfold ParseCall at h
  by_cases hi : ps.initialized = true
  · rw [if_pos hi] at h
    exact drain_success_none sink buf.length ps buf fl ps1 buf1 evs le_rfl h
  · rw [if_neg hi] at h
    cases hn : readerNext buf fl with
    | none =>
        simp only [hn] at h
        simp only [Prod.mk.injEq] at h
        obtain ⟨-, hbuf1, -, -⟩ := h
        subst hbuf1
        exact hn
    | some br =>
        obtain ⟨block, rest⟩ := br
        simp only [hn] at h
        cases hch : checkHeader block with
        | false =>
            rw [if_neg (by simp [hch])] at h
            simp at h
        | true =>
            rw [if_pos hch] at h
            exact drain_success_none sink rest.length
              { ps with initialized := true } rest fl ps1 buf1 evs le_rfl h

/-! ### feed composition -/

theorem feed_flushed (sink : SampleSink) (st : MState) (data : List Char) :
    (feed sink st data).1.flushed = st.flushed := by
  unfold feed
  rcases hp : ParseCall sink st.ps (st.buf ++ data) st.flushed with ⟨ps, buf, evs, ok⟩
  rfl

theorem feed_comp (sink : SampleSink) {st : MState} {d1 : List Char}
    {st1 : MState} {evs1 : List Event} (hfl : st.flushed = false)
    (h1 : feed sink st d1 = (st1, evs1, true)) (d2 : List Char) :
    feed sink st (d1 ++ d2) =
      match feed sink st1 d2 with
      | (st2, evs2, r) => (st2, evs1 ++ evs2, r) := by
  unfold feed at h1 ⊢
  rcases hp : ParseCall sink st.ps (st.buf ++ d1) st.flushed with ⟨ps1, buf1, evsP, ok1⟩
  simp only [hp] at h1
  simp only [Prod.mk.injEq] at h1
  obtain ⟨hst1, hevs1, hok⟩ := h1
  subst hok hevs1
  rw [hfl] at hp
  have hext := ParseCall_extend_success sink hp d2
  rw [← List.append_assoc, hfl, hext, ← hst1]
  simp only [hfl]

theorem feed_fail_extend (sink : SampleSink) {st : MState} {d1 : List Char}
    {st1 : MState} {evs1 : List Event} (hfl : st.flushed = false)
    (h1 : feed sink st d1 = (st1, evs1, false)) (d2 : List Char) :
    feed sink st (d1 ++ d2) = (⟨st1.ps, st1.buf ++ d2, false⟩, evs1, false) := by
  unfold feed at h1 ⊢
  rcases hp : ParseCall sink st.ps (st.buf ++ d1) st.flushed with ⟨ps1, buf1, evsP, ok1⟩
  simp only [hp] at h1
  simp only [Prod.mk.injEq] at h1
  obtain ⟨hst1, hevs1, hok⟩ := h1
  subst hok hevs1
  rw [hfl] at hp
  have hext := ParseCall_extend_fail sink hp d2
  rw [← List.append_assoc, hfl, hext, ← hst1]

theorem feed_split (sink : SampleSink) {st : MState} {d1 d2 : List Char}
    {stF : MState} {evs : List Event} (hfl : st.flushed = false)
    (h : feed sink st (d1 ++ d2) = (stF, evs, true)) :
    ∃ st1 evs1 evs2, feed sink st d1 = (st1, evs1, true) ∧
      feed sink st1 d2 = (stF, evs2, true) ∧ evs = evs1 ++ evs2 := by
  rcases h1 : feed sink st d1 with ⟨st1, evs1, ok1⟩
  cases ok1 with
  | false =>
      rw [feed_fail_extend sink hfl h1 d2] at h
      simp at h
  | true =>
      rw [feed_comp sink hfl h1 d2] at h
      rcases h2 : feed sink st1 d2 with ⟨st2, evs2, ok2⟩
      simp only [h2] at h
      simp only [Prod.mk.injEq] at h
      obtain ⟨hst, hevs, hok⟩ := h
      subst hst hok
      exact ⟨st1, evs1, evs2, rfl, h2, hevs.symm⟩

/-- After a successful feed there is no complete block left buffered. -/
theorem feed_success_next_none (sink : SampleSink) {st : MState}
    {data : List Char} {st1 : MState} {evs : List Event}
    (h : feed sink st data = (st1, evs, true)) :
    readerNext st1.buf st.flushed = none := by
  unfold feed at h
  rcases hp : ParseCall sink st.ps (st.buf ++ data) st.flushed with ⟨ps, buf, evsP, ok⟩
  simp only [hp] at h
  simp only [Prod.mk.injEq] at h
  obtain ⟨hst1, -, hok⟩ := h
  subst hok
  have := ParseCall_success_none sink hp
  rw [← hst1]
  exact this

/-- Feeding nothing to a drained parser is a no-op. -/
theorem feed_nil (sink : SampleSink) {st : MState}
    (h : readerNext st.buf st.flushed = none) :
    feed sink st [] = (st, [], true) := by
  unfold feed
  rw [List.append_nil]
  unfold ParseCall
  by_cases hi : st.ps.initialized = true
  · rw [if_pos hi, drainAll_eq, h]
  · rw [if_neg hi, h]

/-- When a single feed of the joined chunks succeeds, feeding the chunks
one by one produces the same state and emissions, all succeeding. -/
theorem feedMany_of_feed_join (sink : SampleSink) :
    ∀ (ds : List (List Char)) (st : MState) {stF : MState} {evs : List Event},
      st.flushed = false →
      readerNext st.buf false = none →
      feed sink st ds.flatten = (stF, evs, true) →
      feedMany sink st ds = (stF, evs, true) := by
  intro ds
  induction ds with
  | nil =>
      intro st stF evs hfl hnone h
      rw [List.flatten_nil, feed_nil sink (by rw [hfl]; exact hnone)] at h
      simp only [Prod.mk.injEq] at h
      obtain ⟨hst, hevs, -⟩ := h
      subst hst hevs
      rfl
  | cons d ds ih =>
      intro st stF evs hfl hnone h
      rw [List.flatten_cons] at h
      obtain ⟨st1, evs1, evs2, h1, h2, hevs⟩ := feed_split sink hfl h
      have hfl1 : st1.flushed = false := by
        have hq := feed_flushed sink st d
        rw [h1] at hq
        have hq2 : st1.flushed = st.flushed := by simpa using hq
        exact hq2.trans hfl
      have hnone1 : readerNext st1.buf false = none := by
        have hq := feed_success_next_none sink h1
        rwa [hfl] at hq
      have hrec := ih st1 hfl1 hnone1 h2
      unfold feedMany
      simp only [h1, hrec, hevs, Bool.and_self]

/-- Over any whole run, the stream metadata is dispatched at most once. -/
theorem runChunks_si (sink : SampleSink) (chunks : List (List Char)) :
    siCount (runChunks sink chunks).1 ≤ 1 := by
  unfold runChunks
  rcases hm : feedMany sink initMState chunks with ⟨st1, evs1, ok1⟩
  have h1 := feedMany_si sink chunks initMState
  rw [hm] at h1
  rcases hf : flushCall sink st1 with ⟨st2, evs2, ok2⟩
  have h2 := flushCall_si sink st1
  rw [hf] at h2
  simp only [hm, hf, siCount_append]
  have h0 : siBit initMState.ps.streamInfoDispatched = 0 := rfl
  rw [h0] at h1
  have hb2 : siBit st2.ps.streamInfoDispatched ≤ 1 := by
    unfold siBit
    split <;> omega
  simp only at h1 h2
  omega

/-! ### Further helper lemmas -/

/-- A timing line (contains "-->") cannot be a cue identifier. -/
theorem timing_not_cueId {s : String} (h : IsLikelyCueTiming s = true) :
    MaybeCueId s = false := by
  unfold IsLikelyCueTiming at h
  unfold MaybeCueId
  rw [h]
  rfl

/-- The source's header test, in the spec's words: exactly one line, equal
to "WEBVTT", optionally with the UTF-8 BOM prefix. -/
theorem checkHeader_iff (block : List String) :
    checkHeader block = true ↔ (block = ["WEBVTT"] ∨ block = [headerBOM]) := by
  cases block with
  | nil => simp [checkHeader]
  | cons b bs =>
      cases bs with
      | nil => simp [checkHeader]
      | cons b2 bs2 => simp [checkHeader]

/-- A cue whose timing-line conditions fail changes nothing and fails. -/
theorem ParseCue_fail_of_bad (sink : SampleSink) (ps : PState)
    (id timing : String) (payload : List String)
    (h : cueTimingOk timing = false) :
    ParseCue sink ps id timing payload = (ps, [], false) := by
  unfold cueTimingOk at h
  unfold ParseCue
  split
  next t0 t1 t2 ts heq =>
      simp only [heq] at h
      by_cases ht1 : t1 = "-->"
      · rw [if_pos ht1]
        simp only [ht1, decide_eq_true_eq] at h
        simp only [decide_True, Bool.true_and] at h
        cases h0 : WebVttTimestampToMs t0 with
        | none => simp [h0]
        | some s =>
            cases h2 : WebVttTimestampToMs t2 with
            | none => simp [h0, h2]
            | some e =>
                rw [h0, h2] at h
                simp at h
      · rw [if_neg ht1]
  next => rfl

/-- A successful cue parse implies the timing-line conditions. -/
theorem ParseCue_ok_timing (sink : SampleSink) (ps : PState)
    (id timing : String) (payload : List String) (ps2 : PState)
    (evs : List Event)
    (h : ParseCue sink ps id timing payload = (ps2, evs, true)) :
    cueTimingOk timing = true := by
  cases hc : cueTimingOk timing with
  | true => rfl
  | false =>
      rw [ParseCue_fail_of_bad sink ps id timing payload hc] at h
      exact absurd h (by simp)

/-- Once the stream info is dispatched, `ParseCue` never re-emits it. -/
theorem ParseCue_no_redispatch (sink : SampleSink) (ps : PState)
    (id timing : String) (payload : List String)
    (h : ps.streamInfoDispatched = true) :
    (ParseCue sink ps id timing payload).2.1.filter isStreamInfoEv = [] := by
  unfold ParseCue
  repeat' split
  all_goals simp [dispatchEvs, h, isStreamInfoEv]

/-! ### The claims -/

/-- C1: every non-empty block handed to `ParseBlock` after the header is
classified in the strict precedence order comment (NOTE), style, region,
cue-with-identifier, cue-without-identifier, first match winning; a block
matched by no rule makes `ParseBlock` return failure with no state change
and no emissions, and the drain loop aborts at that block without
processing anything further in the call. -/
theorem C1_block_classification (sink : SampleSink) (ps : PState)
    (first : String) (rest : List String) :
    (IsLikelyNote first = true →
      ParseBlock sink ps (first :: rest) = (ps, [], true)) ∧
    (IsLikelyNote first = false → IsLikelyStyle first = true →
      ParseBlock sink ps (first :: rest) = styleRes ps (first :: rest)) ∧
    (IsLikelyNote first = false → IsLikelyStyle first = false →
      IsLikelyRegion first = true →
      ParseBlock sink ps (first :: rest) = styleRes ps (first :: rest)) ∧
    (∀ second rest2, rest = second :: rest2 →
      IsLikelyNote first = false → IsLikelyStyle first = false →
      IsLikelyRegion first = false → MaybeCueId first = true →
      IsLikelyCueTiming second = true →
      ParseBlock sink ps (first :: rest) =
        cueRes (ParseCue sink ps first second rest2)) ∧
    (IsLikelyNote first = false → IsLikelyStyle first = false →
      IsLikelyRegion first = false →
      (∀ second rest2, rest = second :: rest2 →
        (MaybeCueId first && IsLikelyCueTiming second) = false) →
      IsLikelyCueTiming first = true →
      ParseBlock sink ps (first :: rest) =
        cueRes (ParseCue sink ps "" first rest)) ∧
    (IsLikelyNote first = false → IsLikelyStyle first = false →
      IsLikelyRegion first = false →
      (∀ second rest2, rest = second :: rest2 →
        (MaybeCueId first && IsLikelyCueTiming second) = false) →
      IsLikelyCueTiming first = false →
      ParseBlock sink ps (first :: rest) = (ps, [], false)) ∧
    (∀ buf fl tailBuf, readerNext buf fl = some (first :: rest, tailBuf) →
      IsLikelyNote first = false → IsLikelyStyle first = false →
      IsLikelyRegion first = false →
      (∀ second rest2, rest = second :: rest2 →
        (MaybeCueId first && IsLikelyCueTiming second) = false) →
      IsLikelyCueTiming first = false →
      drainAll sink ps buf fl = (ps, tailBuf, [], false)) := by
  refine ⟨?_, ?_, ?_, ?_, ?_, ?_, ?_⟩
  · intro h1
    exact ParseBlock_note h1 sink ps rest
  · intro h1 h2
    exact ParseBlock_style h1 h2 sink ps rest
  · intro h1 h2 h3
    exact ParseBlock_region h1 h2 h3 sink ps rest
  · intro second rest2 hr h1 h2 h3 hm ht
    subst hr
    exact ParseBlock_cueId h1 h2 h3 hm ht sink ps rest2
  · intro h1 h2 h3 hg ht
    exact ParseBlock_cueNoId h1 h2 h3 hg ht sink ps
  · intro h1 h2 h3 hg ht
    exact ParseBlock_fail h1 h2 h3 hg ht sink ps
  · intro buf fl tailBuf hn h1 h2 h3 hg ht
    rw [drainAll_eq]
    simp only [hn, ParseBlock_fail h1 h2 h3 hg ht sink ps]
    simp

/-- C1 witness: a NOTE block is discarded with success; a single-line
non-timing block is unclassifiable and the drain aborts on it. -/
theorem C1_block_classification_witness :
    ParseBlock acceptAll ⟨true, false, false, ""⟩ ["NOTE a comment"] =
      (⟨true, false, false, ""⟩, [], true) ∧
    ParseBlock acceptAll ⟨true, false, false, ""⟩ ["bogus"] =
      (⟨true, false, false, ""⟩, [], false) ∧
    drainAll acceptAll ⟨true, false, false, ""⟩ "bogus\n\nrest".data false =
      (⟨true, false, false, ""⟩, "rest".data, [], false) :=
  ⟨(C1_block_classification acceptAll ⟨true, false, false, ""⟩ "NOTE a comment" []).1
      (by decide),
   (C1_block_classification acceptAll ⟨true, false, false, ""⟩ "bogus" []).2.2.2.2.2.1
      (by decide) (by decide) (by decide) (by intro s r2 hq; cases hq) (by decide),
   (C1_block_classification acceptAll ⟨true, false, false, ""⟩ "bogus" []).2.2.2.2.2.2
      "bogus\n\nrest".data false "rest".data (by decide)
      (by decide) (by decide) (by decide) (by intro s r2 hq; cases hq) (by decide)⟩

/-- C2: for an uninitialized parser, a parse call with no complete block
available returns success consuming nothing; a first block that is exactly
one line equal to "WEBVTT" (optionally BOM-prefixed) initializes the
parser and the call continues draining the remaining input; any other
complete first block makes the call return failure. -/
theorem C2_header (sink : SampleSink) (ps : PState) (buf : List Char)
    (fl : Bool) (h : ps.initialized = false) :
    (readerNext buf fl = none → ParseCall sink ps buf fl = (ps, buf, [], true)) ∧
    (∀ block rest, readerNext buf fl = some (block, rest) →
      ((block = ["WEBVTT"] ∨ block = [headerBOM]) →
        ParseCall sink ps buf fl =
          drainAll sink { ps with initialized := true } rest fl) ∧
      (¬(block = ["WEBVTT"] ∨ block = [headerBOM]) →
        ParseCall sink ps buf fl = (ps, rest, [], false))) := by
  have hi : ¬ps.initialized = true := by rw [h]; simp
  constructor
  · intro hn
    unfold ParseCall
    rw [if_neg hi, hn]
  · intro block rest hn
    constructor
    · intro hhdr
      unfold ParseCall
      rw [if_neg hi]
      simp only [hn]
      rw [if_pos ((checkHeader_iff block).mpr hhdr)]
    · intro hhdr
      unfold ParseCall
      rw [if_neg hi]
      simp only [hn]
      rw [if_neg (fun hc => hhdr ((checkHeader_iff block).mp hc))]

/-- C2 witness: concrete header blocks, with and without the BOM, and a
rejected two-line first block. -/
theorem C2_header_witness :
    ParseCall acceptAll ⟨false, false, false, ""⟩ "WEBVTT\n\n".data false =
      drainAll acceptAll ⟨true, false, false, ""⟩ [] false ∧
    ParseCall acceptAll ⟨false, false, false, ""⟩ "WEBVTT\nWEBVTT\n\n".data false =
      (⟨false, false, false, ""⟩, [], [], false) ∧
    ParseCall acceptAll ⟨false, false, false, ""⟩ "WEBV".data false =
      (⟨false, false, false, ""⟩, "WEBV".data, [], true) :=
  ⟨((C2_header acceptAll ⟨false, false, false, ""⟩ "WEBVTT\n\n".data false rfl).2
      ["WEBVTT"] [] (by decide)).1 (Or.inl rfl),
   ((C2_header acceptAll ⟨false, false, false, ""⟩ "WEBVTT\nWEBVTT\n\n".data false rfl).2
      ["WEBVTT", "WEBVTT"] [] (by decide)).2 (by decide),
   (C2_header acceptAll ⟨false, false, false, ""⟩ "WEBV".data false rfl).1 (by decide)⟩

/-- C3: a candidate cue succeeds only if the timing line splits into at
least 3 non-empty tokens with token 1 exactly "-->" and tokens 0 and 2
valid timestamps; when any condition fails the cue parse fails with no
state change and no emissions, and a cue-shaped block with such a timing
line is unclassifiable. -/
theorem C3_timing_conditions (sink : SampleSink) (ps : PState)
    (id timing : String) (payload : List String) :
    (∀ ps2 evs, ParseCue sink ps id timing payload = (ps2, evs, true) →
      cueTimingOk timing = true) ∧
    (cueTimingOk timing = false →
      ParseCue sink ps id timing payload = (ps, [], false)) ∧
    (cueTimingOk timing = false → IsLikelyCueTiming timing = true →
      IsLikelyNote timing = false → IsLikelyStyle timing = false →
      IsLikelyRegion timing = false →
      ParseBlock sink ps (timing :: payload) = (ps, [], false)) := by
  refine ⟨?_, ?_, ?_⟩
  · intro ps2 evs hsucc
    exact ParseCue_ok_timing sink ps id timing payload ps2 evs hsucc
  · intro hbad
    exact ParseCue_fail_of_bad sink ps id timing payload hbad
  · intro hbad ht h1 h2 h3
    have hg : ∀ second rest2, payload = second :: rest2 →
        (MaybeCueId timing && IsLikelyCueTiming second) = false := by
      intro second rest2 hq
      rw [timing_not_cueId ht]
      rfl
    rw [ParseBlock_cueNoId h1 h2 h3 hg ht sink ps,
      ParseCue_fail_of_bad sink ps "" timing payload hbad]
    rfl

/-- C3 witness: a timing line with a malformed end timestamp fails, and
the block containing it is unclassifiable. -/
theorem C3_timing_conditions_witness :
    ParseCue acceptAll ⟨true, false, false, ""⟩ ""
      "00:00:00.000 --> 00:xx:00.000" ["hi"] =
      (⟨true, false, false, ""⟩, [], false) ∧
    ParseBlock acceptAll ⟨true, false, false, ""⟩
      ["00:00:00.000 --> 00:xx:00.000", "hi"] =
      (⟨true, false, false, ""⟩, [], false) :=
  ⟨(C3_timing_conditions acceptAll ⟨true, false, false, ""⟩ ""
      "00:00:00.000 --> 00:xx:00.000" ["hi"]).2.1 (by decide),
   (C3_timing_conditions acceptAll ⟨true, false, false, ""⟩ ""
      "00:00:00.000 --> 00:xx:00.000" ["hi"]).2.2 (by decide) (by decide)
      (by decide) (by decide) (by decide)⟩

/-- C4: a cue whose timing parses but whose end time is not greater than
its start time emits no sample, dispatches the stream metadata exactly
when it has not yet been dispatched, returns success (so parsing
continues), and at the block level still sets `saw_cue_`. -/
theorem C4_zero_duration (sink : SampleSink) (ps : PState) (id timing : String)
    (payload : List String) (t0 t2 : String) (ts : List String) (s e : Nat)
    (hsplit : splitTimingLine timing = t0 :: "-->" :: t2 :: ts)
    (hs : WebVttTimestampToMs t0 = some s)
    (he : WebVttTimestampToMs t2 = some e) (hle : e ≤ s) :
    ParseCue sink ps id timing payload =
      ({ ps with streamInfoDispatched := true }, dispatchEvs ps, true) ∧
    (∀ ev ∈ dispatchEvs ps, isStreamInfoEv ev = true) ∧
    (ps.streamInfoDispatched = true → dispatchEvs ps = []) ∧
    (IsLikelyNote timing = false → IsLikelyStyle timing = false →
      IsLikelyRegion timing = false → IsLikelyCueTiming timing = true →
      ParseBlock sink ps (timing :: payload) =
        ({ ps with streamInfoDispatched := true, sawCue := true },
         dispatchEvs ps, true)) := by
  have hcue : ParseCue sink ps id timing payload =
      ({ ps with streamInfoDispatched := true }, dispatchEvs ps, true) := by
    unfold ParseCue
    simp only [hsplit]
    rw [if_pos True.intro]
    simp only [hs, he]
    rw [if_pos hle]
  refine ⟨hcue, ?_, ?_, ?_⟩
  · intro ev hev
    unfold dispatchEvs at hev
    cases hd : ps.streamInfoDispatched with
    | true => rw [hd] at hev; simp at hev
    | false =>
        rw [hd] at hev
        simp at hev
        rw [hev]
        rfl
  · intro hd
    unfold dispatchEvs
    rw [if_pos hd]
  · intro h1 h2 h3 ht
    have hg : ∀ second rest2, payload = second :: rest2 →
        (MaybeCueId timing && IsLikelyCueTiming second) = false := by
      intro second rest2 hq
      rw [timing_not_cueId ht]
      rfl
    have hcue0 : ParseCue sink ps "" timing payload =
        ({ ps with streamInfoDispatched := true }, dispatchEvs ps, true) := by
      unfold ParseCue
      simp only [hsplit]
      rw [if_pos True.intro]
      simp only [hs, he]
      rw [if_pos hle]
    rw [ParseBlock_cueNoId h1 h2 h3 hg ht sink ps, hcue0]
    rfl

/-- C4 witness: a zero-duration cue is dropped but classified, and the
metadata is dispatched. -/
theorem C4_zero_duration_witness :
    ParseCue acceptAll ⟨true, false, false, ""⟩ ""
      "00:01:00.000 --> 00:01:00.000" ["x"] =
      (⟨true, true, false, ""⟩, [Event.streamInfo (mkStreamInfo "")], true) ∧
    ParseBlock acceptAll ⟨true, false, false, ""⟩
      ["00:01:00.000 --> 00:01:00.000", "x"] =
      (⟨true, true, true, ""⟩, [Event.streamInfo (mkStreamInfo "")], true) :=
  ⟨(C4_zero_duration acceptAll ⟨true, false, false, ""⟩ ""
      "00:01:00.000 --> 00:01:00.000" ["x"] "00:01:00.000" "00:01:00.000" []
      60000 60000 (by decide) (by decide) (by decide) (by decide)).1,
   (C4_zero_duration acceptAll ⟨true, false, false, ""⟩ ""
      "00:01:00.000 --> 00:01:00.000" ["x"] "00:01:00.000" "00:01:00.000" []
      60000 60000 (by decide) (by decide) (by decide) (by decide)).2.2.2
      (by decide) (by decide) (by decide) (by decide)⟩

/-- C5: STYLE and REGION blocks arriving while no cue has been seen append
to the config blob (lines newline-joined, blocks separated by one blank
line, in arrival order); once a cue has been seen they are dropped without
modifying the state; the dispatched stream info carries the then-current
blob; after the dispatch no further stream info is ever emitted, and over
any whole run the stream metadata is dispatched at most once. -/
theorem C5_config_blob (sink : SampleSink) :
    (∀ (ps : PState) (first : String) (rest : List String),
      ps.sawCue = false → IsLikelyNote first = false →
      (IsLikelyStyle first = true ∨
        (IsLikelyStyle first = false ∧ IsLikelyRegion first = true)) →
      ParseBlock sink ps (first :: rest) =
        ({ ps with styleRegionConfig :=
              UpdateConfig (first :: rest) ps.styleRegionConfig }, [], true)) ∧
    (∀ (ps : PState) (first : String) (rest : List String),
      ps.sawCue = true → IsLikelyNote first = false →
      (IsLikelyStyle first = true ∨
        (IsLikelyStyle first = false ∧ IsLikelyRegion first = true)) →
      ParseBlock sink ps (first :: rest) = (ps, [], true)) ∧
    (∀ ps : PState, ps.streamInfoDispatched = false →
      dispatchEvs ps = [Event.streamInfo (mkStreamInfo ps.styleRegionConfig)]) ∧
    (∀ (ps : PState) (id timing : String) (payload : List String),
      ps.streamInfoDispatched = true →
      (ParseCue sink ps id timing payload).2.1.filter isStreamInfoEv = []) ∧
    (∀ chunks : List (List Char), siCount (runChunks sink chunks).1 ≤ 1) := by
  refine ⟨?_, ?_, ?_, ?_, ?_⟩
  · intro ps first rest hsc h1 hsr
    rcases hsr with h2 | ⟨h2, h3⟩
    · rw [ParseBlock_style h1 h2 sink ps rest]
      unfold styleRes
      rw [if_neg (by rw [hsc]; simp)]
    · rw [ParseBlock_region h1 h2 h3 sink ps rest]
      unfold styleRes
      rw [if_neg (by rw [hsc]; simp)]
  · intro ps first rest hsc h1 hsr
    rcases hsr with h2 | ⟨h2, h3⟩
    · rw [ParseBlock_style h1 h2 sink ps rest]
      unfold styleRes
      rw [if_pos hsc]
    · rw [ParseBlock_region h1 h2 h3 sink ps rest]
      unfold styleRes
      rw [if_pos hsc]
  · intro ps hd
    unfold dispatchEvs
    rw [if_neg (by rw [hd]; simp)]
  · intro ps id timing payload hd
    exact ParseCue_no_redispatch sink ps id timing payload hd
  · intro chunks
    exact runChunks_si sink chunks

/-- C5 witness: a STYLE then a REGION block accumulate into the blob in
order, and a STYLE block after a cue is dropped. -/
theorem C5_config_blob_witness :
    ParseBlock acceptAll ⟨true, false, false, ""⟩ ["STYLE", "::cue x"] =
      (⟨true, false, false, "STYLE\n::cue x"⟩, [], true) ∧
    ParseBlock acceptAll ⟨true, false, false, "STYLE\n::cue x"⟩
      ["REGION", "id:r"] =
      (⟨true, false, false, "STYLE\n::cue x\n\nREGION\nid:r"⟩, [], true) ∧
    ParseBlock acceptAll ⟨true, false, true, "STYLE\n::cue x"⟩
      ["STYLE", "::cue y"] =
      (⟨true, false, true, "STYLE\n::cue x"⟩, [], true) :=
  ⟨by
    have h := (C5_config_blob acceptAll).1 ⟨true, false, false, ""⟩ "STYLE"
      ["::cue x"] rfl (by decide) (Or.inl (by decide))
    rw [h]
    rfl,
   by
    have h := (C5_config_blob acceptAll).1 ⟨true, false, false, "STYLE\n::cue x"⟩
      "REGION" ["id:r"] rfl (by decide) (Or.inr ⟨by decide, by decide⟩)
    rw [h]
    rfl,
   (C5_config_blob acceptAll).2.1 ⟨true, false, true, "STYLE\n::cue x"⟩ "STYLE"
      ["::cue y"] rfl (by decide) (Or.inl (by decide))⟩

/-- C6: a valid cue with end time greater than start time emits (after the
one-time metadata dispatch) exactly one sample on stream index 0 carrying
the given id, the parsed times, the space-joined settings tokens from
index 3 on, and the newline-joined payload lines; the call's result is the
sink's verdict, so a rejecting sink makes the cue parse (and hence the
parse call) fail. -/
theorem C6_cue_emission (sink : SampleSink) (ps : PState) (id timing : String)
    (payload : List String) (t0 t2 : String) (ts : List String) (s e : Nat)
    (hsplit : splitTimingLine timing = t0 :: "-->" :: t2 :: ts)
    (hs : WebVttTimestampToMs t0 = some s)
    (he : WebVttTimestampToMs t2 = some e) (hlt : s < e) :
    ParseCue sink ps id timing payload =
      ({ ps with streamInfoDispatched := true },
       dispatchEvs ps ++ [Event.sample 0 (cueSample id s e ts payload)],
       sink 0 (cueSample id s e ts payload)) ∧
    (cueSample id s e ts payload).settings = joinWith ' ' ts ∧
    (cueSample id s e ts payload).payload = joinWith '\n' payload ∧
    (sink 0 (cueSample id s e ts payload) = false →
      (ParseCue sink ps id timing payload).2.2 = false) := by
  have hcue : ParseCue sink ps id timing payload =
      ({ ps with streamInfoDispatched := true },
       dispatchEvs ps ++ [Event.sample 0 (cueSample id s e ts payload)],
       sink 0 (cueSample id s e ts payload)) := by
    unfold ParseCue
    simp only [hsplit]
    rw [if_pos True.intro]
    simp only [hs, he]
    rw [if_neg (by omega)]
  refine ⟨hcue, rfl, rfl, ?_⟩
  intro hrej
  rw [hcue, hrej]

/-- C6 witness: the settings and payload of a concrete emitted cue, and
the failure with a rejecting sink. -/
theorem C6_cue_emission_witness :
    ParseCue acceptAll ⟨true, true, true, ""⟩ "id7"
      "00:01:00.000 --> 01:00:00.000 size:50% align:left" ["line1", "line2"] =
      (⟨true, true, true, ""⟩,
       [Event.sample 0 ⟨"id7", 60000, 3600000, "size:50% align:left",
          "line1\nline2"⟩], true) ∧
    (ParseCue (fun _ _ => false) ⟨true, true, true, ""⟩ "id7"
      "00:01:00.000 --> 01:00:00.000 size:50% align:left"
      ["line1", "line2"]).2.2 = false :=
  ⟨(C6_cue_emission acceptAll ⟨true, true, true, ""⟩ "id7"
      "00:01:00.000 --> 01:00:00.000 size:50% align:left" ["line1", "line2"]
      "00:01:00.000" "01:00:00.000" ["size:50%", "align:left"] 60000 3600000
      (by decide) (by decide) (by decide) (by decide)).1,
   (C6_cue_emission (fun _ _ => false) ⟨true, true, true, ""⟩ "id7"
      "00:01:00.000 --> 01:00:00.000 size:50% align:left" ["line1", "line2"]
      "00:01:00.000" "01:00:00.000" ["size:50%", "align:left"] 60000 3600000
      (by decide) (by decide) (by decide) (by decide)).2.2.2 rfl⟩

/-- C7 counterexample: the same document fed as one chunk versus as two
chunks yields different emission sequences.  As one chunk, the feed call
aborts at the first unclassifiable block and the flush call aborts at the
second, so the trailing cue is never processed; with the split, the cue is
still buffered at flush time and is emitted. -/
theorem C7_counterexample :
    (runChunks acceptAll [chunkBad1 ++ chunkBad2Cue]).1 ≠
      (runChunks acceptAll [chunkBad1, chunkBad2Cue]).1 := by
  decide

/-- C7 (amended): chunk-boundary independence holds for every run in which
the whole-document single-chunk run succeeds: any partition of the
document into chunks yields the identical emission sequence and overall
success. -/
theorem C7_chunk_independence (sink : SampleSink) (doc : List Char)
    (chunks : List (List Char)) (hjoin : chunks.flatten = doc)
    (hok : (runChunks sink [doc]).2 = true) :
    runChunks sink chunks = runChunks sink [doc] := by
  subst hjoin
  rcases hf : feed sink initMState chunks.flatten with ⟨st1, e1, ok1⟩
  rcases hfc : flushCall sink st1 with ⟨st2, e2, ok2⟩
  have hFM : feedMany sink initMState [chunks.flatten] = (st1, e1, ok1) := by
    simp [feedMany, hf]
  have hsingle : runChunks sink [chunks.flatten] = (e1 ++ e2, ok1 && ok2) := by
    unfold runChunks
    simp only [hFM, hfc]
  rw [hsingle] at hok
  simp only at hok
  rw [Bool.and_eq_true] at hok
  obtain ⟨hok1, hok2⟩ := hok
  rw [hok1] at hf
  have hmany : feedMany sink initMState chunks = (st1, e1, true) :=
    feedMany_of_feed_join sink chunks initMState rfl rfl hf
  rw [hsingle]
  unfold runChunks
  simp only [hmany, hfc]
  rw [hok1]

/-- C7 witness: a well-formed document run as one chunk or split in two
gives identical results. -/
theorem C7_chunk_independence_witness :
    runChunks acceptAll ["WEBVTT\n\n00:00:".data, "00.000 --> 00:00:01.000\nhi\n".data] =
      runChunks acceptAll ["WEBVTT\n\n00:00:00.000 --> 00:00:01.000\nhi\n".data] :=
  C7_chunk_independence acceptAll
    "WEBVTT\n\n00:00:00.000 --> 00:00:01.000\nhi\n".data
    ["WEBVTT\n\n00:00:".data, "00.000 --> 00:00:01.000\nhi\n".data]
    (by decide) (by decide)

/-- C8 counterexample: a feed call that returns failure followed by a feed
call on the same parser that returns success — failure is not latched. -/
theorem C8_counterexample :
    (feed acceptAll initMState chunkHdrBad).2.2 = false ∧
    (feed acceptAll (feed acceptAll initMState chunkHdrBad).1
        chunkGoodCue).2.2 = true := by
  decide

/-- C8 (amended): when a block fails classification the current call
aborts there, returning failure with the failing block consumed and the
rest of the buffer untouched; but the parser keeps no failure flag — a
subsequent call is determined purely by the remaining state, and can
succeed (concretely, a feed after a failed feed emits the next cue). -/
theorem C8_no_failure_latch (sink : SampleSink) (ps : PState)
    (buf : List Char) (block : List String) (rest : List Char) (ps2 : PState)
    (evs : List Event) (hinit : ps.initialized = true)
    (hn : readerNext buf false = some (block, rest))
    (hpb : ParseBlock sink ps block = (ps2, evs, false)) :
    ParseCall sink ps buf false = (ps2, rest, evs, false) ∧
    (∀ data, feed sink ⟨ps2, rest, false⟩ data =
      (fun q => ((⟨q.1, q.2.1, false⟩ : MState), q.2.2.1, q.2.2.2))
        (ParseCall sink ps2 (rest ++ data) false)) ∧
    (feed acceptAll (feed acceptAll initMState chunkHdrBad).1
        chunkGoodCue).2.2 = true := by
  refine ⟨?_, ?_, ?_⟩
  · unfold ParseCall
    rw [if_pos hinit, drainAll_eq]
    simp only [hn, hpb]
    simp
  · intro data
    unfold feed
    rcases hp : ParseCall sink ps2 (rest ++ data) false with ⟨a, b, c, r⟩
    rfl
  · decide

/-- C8 amended witness: concrete failing state and recovery. -/
theorem C8_no_failure_latch_witness :
    ParseCall acceptAll ⟨true, false, false, ""⟩ "bogus\n\nX".data false =
      (⟨true, false, false, ""⟩, "X".data, [], false) :=
  (C8_no_failure_latch acceptAll ⟨true, false, false, ""⟩ "bogus\n\nX".data
    ["bogus"] "X".data ⟨true, false, false, ""⟩ [] rfl (by decide)
    (by decide)).1

/-- C9: supplying a non-null decryption key source trips the
`DCHECK(!decryption_key_source)` in `Init`: initialization fails and no
parser state is produced, before any bytes can be processed. -/
theorem C9_reject_key_source (ks : KeySource) :
    InitParser (some ks) = none := rfl

/-- C10: the block reader yields only non-empty blocks, so the
unconditional `block[0]` read in the classification step is always in
bounds: every yielded block has a first line, and `ParseBlock`'s
empty-block branch is unreachable on reader output. -/
theorem C10_reader_blocks_nonempty (buf : List Char) (fl : Bool)
    (block : List String) (rest : List Char)
    (h : readerNext buf fl = some (block, rest)) :
    block ≠ [] ∧ ∃ first tailLines, block = first :: tailLines := by
  have hne := readerNext_nonempty h
  refine ⟨hne, ?_⟩
  cases block with
  | nil => exact absurd rfl hne
  | cons f t => exact ⟨f, t, rfl⟩

/-- C10 witness: a concrete yielded block is non-empty. -/
theorem C10_reader_blocks_nonempty_witness :
    (["a"] : List String) ≠ [] ∧
      ∃ first tailLines, (["a"] : List String) = first :: tailLines :=
  C10_reader_blocks_nonempty "a\n\n".data false ["a"] [] (by decide)

end WebVtt
